import Mathlib

/-!
Shallow embedding of the vector-memory engine of the eggdrop-ai gateway
(`gateway/memory.ts`, class `VectorMemory`), together with theorems checking
the natural-language specification of the hybrid memory engine against it.

Modelling conventions:
* SQLite tables become Lean lists: the `messages` table is a list of rows in
  insertion order (`AUTOINCREMENT` becomes an explicit `nextId` counter), the
  `vec_messages` virtual table is a list of `(message_id, embedding)` pairs.
* The transformers.js embedding provider is opaque in the source; it is
  modelled as a function `String → Option (List Rat)` (`none` = provider
  failure).  The sqlite-vec `vec_distance_cosine` function is likewise opaque
  and is passed in as a parameter `dist`.
* JavaScript `number` timestamps and ids become `Nat` (ids are nonnegative and
  produced by `AUTOINCREMENT`); the sentinel `-1` makes `addMessage` return an
  `Int`.
* `ORDER BY ... LIMIT ?` becomes insertion sort followed by `List.take`.
* `Array.prototype.slice(0, end)` keeps JavaScript semantics: a negative `end`
  counts from the end of the array (`jsSliceTo`).
* Thrown exceptions become `Except`; `try/catch` blocks that log and return a
  default become that default.
-/

namespace EggdropAI

/-- The `role` column: `CHECK(role IN ('user', 'assistant'))`. -/
inductive Role where
  | user
  | assistant
deriving DecidableEq, Repr

/-- One row of the `messages` table, matching the `MemoryMessage` interface of
`memory.ts` (the optional `similarity` field is populated by `searchSimilar`). -/
structure MemoryMessage where
  id : Nat
  channel : String
  user : String
  message : String
  role : Role
  timestamp : Nat
  similarity : Option Rat := none
deriving DecidableEq, Repr

/-- The persistent SQLite state: the `messages` table, the `vec_messages`
vec0 virtual table, and the `AUTOINCREMENT` counter. -/
structure DBState where
  messages : List MemoryMessage
  vecMessages : List (Nat × List Rat)
  nextId : Nat
deriving DecidableEq, Repr

/-- The `VectorMemoryOptions` interface (topK, includeRecent, enabled; the
`dbPath` plays no role in the data model). -/
structure VectorMemoryOptions where
  topK : Nat
  includeRecent : Nat
  enabled : Bool
deriving DecidableEq, Repr

/-- The in-process state of the `VectorMemory` class: nullable `db` handle,
nullable `embedder` pipeline, the options, and the `initialized` flag. -/
structure VectorMemory where
  db : Option DBState
  embedder : Option (String → Option (List Rat))
  options : VectorMemoryOptions
  initialized : Bool

/-- Errors of `generateEmbedding`: the explicit `'Embedding model not
initialized'` throw, and a failure of the provider itself (rethrown). -/
inductive EmbedError where
  | notInitialized
  | providerFailure
deriving DecidableEq, Repr

/-- Errors of `addMessage`: the explicit `'Database not initialized'` throw. -/
inductive AddError where
  | dbNotInitialized
deriving DecidableEq, Repr

/-- `isReady()`: `this.options.enabled && this.initialized`. -/
def VectorMemory.isReady (vm : VectorMemory) : Bool :=
  vm.options.enabled && vm.initialized

/-- `initialize()`.  The external effects are parameters: `disk` is the
database state found at `dbPath`, `extOk` tells whether loading the sqlite-vec
extension succeeds, `embedLoad` is the result of loading the embedding
pipeline (`none` = load failure).  Returns `(success, new state)`; on the
failure paths the method throws after `this.db` was already assigned and
before `this.initialized` is set. -/
def VectorMemory.initialize (vm : VectorMemory) (disk : DBState) (extOk : Bool)
    (embedLoad : Option (String → Option (List Rat))) : Bool × VectorMemory :=
  if !vm.options.enabled then (true, vm)
  else if vm.initialized then (true, vm)
  else
    let vm1 : VectorMemory := { vm with db := some disk }
    if !extOk then (false, vm1)
    else
      match embedLoad with
      | none => (false, vm1)
      | some f => (true, { vm1 with embedder := some f, initialized := true })

/-- `generateEmbedding(text)`: throws if the embedder is null, otherwise runs
the pipeline and rethrows its failure. -/
def VectorMemory.generateEmbedding (vm : VectorMemory) (text : String) :
    Except EmbedError (List Rat) :=
  match vm.embedder with
  | none => Except.error EmbedError.notInitialized
  | some f =>
    match f text with
    | none => Except.error EmbedError.providerFailure
    | some v => Except.ok v

/-- `addMessage(channel, user, message, role)`.  The `Date.now()` timestamp is
a parameter.  Returns `-1` without touching the store when the engine is
disabled or uninitialized; throws when `this.db` is null; otherwise inserts
the row and returns its fresh id.  The embedding step runs later, out of band
(`setImmediate`), and is modelled by `embedAndStore` below. -/
def VectorMemory.addMessage (vm : VectorMemory) (channel u msg : String)
    (role : Role) (timestamp : Nat) : Except AddError (Int × VectorMemory) :=
  if !vm.options.enabled || !vm.initialized then Except.ok (-1, vm)
  else
    match vm.db with
    | none => Except.error AddError.dbNotInitialized
    | some db =>
      let messageId := db.nextId
      let row : MemoryMessage :=
        { id := messageId, channel := channel, user := u, message := msg,
          role := role, timestamp := timestamp, similarity := none }
      let db1 : DBState :=
        { db with messages := db.messages ++ [row], nextId := db.nextId + 1 }
      Except.ok ((messageId : Int), { vm with db := some db1 })

/-- The body of the `setImmediate` callback of `addMessage`: compute the
embedding of `text` and insert it into `vec_messages` under `messageId`.
Every failure (embedding failure, closed database, primary-key violation on
`message_id`) is caught, logged and swallowed, leaving the state unchanged. -/
def VectorMemory.embedAndStore (vm : VectorMemory) (messageId : Nat)
    (text : String) : VectorMemory :=
  match vm.generateEmbedding text with
  | Except.error _ => vm
  | Except.ok emb =>
    match vm.db with
    | none => vm
    | some db =>
      if db.vecMessages.any (fun p => p.1 == messageId) then vm
      else { vm with
              db := some { db with vecMessages := db.vecMessages ++ [(messageId, emb)] } }

/-- The rows of the `messages` table belonging to one channel
(`WHERE channel = ?`), in table order. -/
def channelMessages (db : DBState) (channel : String) : List MemoryMessage :=
  db.messages.filter (fun m => m.channel == channel)

/-- `ORDER BY timestamp DESC`: larger timestamps first. -/
def tsGE (a b : MemoryMessage) : Prop := b.timestamp ≤ a.timestamp

instance : DecidableRel tsGE := fun a b => Nat.decLe b.timestamp a.timestamp

instance : IsTotal MemoryMessage tsGE := ⟨fun a b => Or.symm (Nat.le_total a.timestamp b.timestamp)⟩

instance : IsTrans MemoryMessage tsGE := ⟨fun _ _ _ h1 h2 => Nat.le_trans h2 h1⟩

/-- `getRecentMessages(channel, limit)`: scan the channel newest-first
(`ORDER BY timestamp DESC LIMIT ?`), then reverse to chronological order.
Returns `[]` when disabled, uninitialized, the database handle is null, or
the query fails. -/
def VectorMemory.getRecentMessages (vm : VectorMemory) (channel : String)
    (limit : Nat) : List MemoryMessage :=
  if !vm.options.enabled || !vm.initialized then []
  else
    match vm.db with
    | none => []
    | some db =>
      (((channelMessages db channel).insertionSort tsGE).take limit).reverse

/-- `ORDER BY distance ASC`: smaller distances first, on joined
`(row, distance)` pairs. -/
def distLE (a b : MemoryMessage × Rat) : Prop := a.2 ≤ b.2

instance : DecidableRel distLE := fun a b => Rat.instDecidableLe a.2 b.2

instance : IsTotal (MemoryMessage × Rat) distLE := ⟨fun a b => le_total a.2 b.2⟩

instance : IsTrans (MemoryMessage × Rat) distLE := ⟨fun _ _ _ h1 h2 => le_trans h1 h2⟩

/-- The join `FROM vec_messages v JOIN messages m ON v.message_id = m.id
WHERE m.channel = ?`, each joined row paired with
`vec_distance_cosine(v.embedding, queryEmbedding)`. -/
def joinVec (db : DBState) (dist : List Rat → List Rat → Rat)
    (channel : String) (queryEmbedding : List Rat) : List (MemoryMessage × Rat) :=
  db.vecMessages.filterMap (fun p =>
    match db.messages.find? (fun m => m.id == p.1) with
    | none => none
    | some m => if m.channel == channel then some (m, dist p.2 queryEmbedding) else none)

/-- `searchSimilar(channel, query, limit)`: embed the query, run the
nearest-neighbor join ordered by ascending cosine distance with `LIMIT`, and
report each row with `similarity = 1 - distance`.  Any failure (including an
embedding failure) is caught and yields `[]`. -/
def VectorMemory.searchSimilar (vm : VectorMemory)
    (dist : List Rat → List Rat → Rat) (channel query : String)
    (limit : Nat) : List MemoryMessage :=
  if !vm.options.enabled || !vm.initialized then []
  else
    match vm.db with
    | none => []
    | some db =>
      match vm.generateEmbedding query with
      | Except.error _ => []
      | Except.ok qv =>
        let rows := ((joinVec db dist channel qv).insertionSort distLE).take limit
        rows.map (fun p => { p.1 with similarity := some (1 - p.2) })

/-- JavaScript `array.slice(0, e)`: a nonnegative `e` is an exclusive end
index, a negative `e` counts from the end of the array. -/
def jsSliceTo {α : Type} (l : List α) (e : Int) : List α :=
  if e < 0 then l.take (l.length - e.natAbs) else l.take e.toNat

/-- `getContext(channel, query)`: fetch the recency slice
(`includeRecent`-long) and the similarity slice (`topK`-long), drop similar
messages whose id already occurs among the recent ones, cap the remainder
with `slice(0, topK - includeRecent)` (JavaScript semantics), and return
recent ++ additional. -/
def VectorMemory.getContext (vm : VectorMemory)
    (dist : List Rat → List Rat → Rat) (channel query : String) :
    List MemoryMessage :=
  if !vm.options.enabled || !vm.initialized then []
  else
    let recent := vm.getRecentMessages channel vm.options.includeRecent
    let similar := vm.searchSimilar dist channel query vm.options.topK
    let recentIds := recent.map (fun m => m.id)
    let additionalContext :=
      jsSliceTo (similar.filter (fun m => !recentIds.contains m.id))
        ((vm.options.topK : Int) - (vm.options.includeRecent : Int))
    recent ++ additionalContext

/-- `close()`: null out the database handle and clear `initialized`
(the embedder reference is left as is). -/
def VectorMemory.close (vm : VectorMemory) : VectorMemory :=
  match vm.db with
  | none => vm
  | some _ => { vm with db := none, initialized := false }

/-- Modelled from the spec: the retention purge `purge_older_than(cutoff)` of
the Retention Sweeper is described in the specification (Message Store
operation: delete all messages with `timestamp < cutoff` across all channels
and, transitively, their embeddings), but its implementation is not among the
provided sources — only the `retentionDays` configuration option and the
schema appear there. -/
def purge_older_than (db : DBState) (cutoff : Nat) : DBState :=
  let doomedIds :=
    (db.messages.filter (fun m => decide (m.timestamp < cutoff))).map (fun m => m.id)
  { db with
    messages := db.messages.filter (fun m => !decide (m.timestamp < cutoff)),
    vecMessages := db.vecMessages.filter (fun p => !doomedIds.contains p.1) }

/-- Well-formedness of the persistent state, as enforced by the SQLite schema
and the write path: `messages.id` is a primary key, `vec_messages.message_id`
is a primary key, ids stay below the autoincrement counter, and every
embedding references an existing message. -/
def DBState.WF (db : DBState) : Prop :=
  (db.messages.map (fun m => m.id)).Nodup ∧
  (db.vecMessages.map (fun p => p.1)).Nodup ∧
  (∀ m ∈ db.messages, m.id < db.nextId) ∧
  (∀ p ∈ db.vecMessages, ∃ m ∈ db.messages, m.id = p.1)

/-- The class invariant tying `initialized` to the nullable fields: whenever
`initialized` is set, both `db` and `embedder` are non-null. -/
def VectorMemory.Inv (vm : VectorMemory) : Prop :=
  vm.initialized = true → vm.db.isSome = true ∧ vm.embedder.isSome = true

/-- The row `addMessage` inserts (`INSERT INTO messages ... VALUES (?,?,?,?,?)`
with the `AUTOINCREMENT` id). -/
def newRow (db : DBState) (ch u msg : String) (role : Role) (ts : Nat) :
    MemoryMessage :=
  { id := db.nextId, channel := ch, user := u, message := msg, role := role,
    timestamp := ts, similarity := none }

/-- The database state after `addMessage` inserts its row. -/
def dbAfterAdd (db : DBState) (ch u msg : String) (role : Role) (ts : Nat) :
    DBState :=
  { db with
    messages := db.messages ++ [newRow db ch u msg role ts],
    nextId := db.nextId + 1 }

/-! ### Concrete sample states (used by witnesses and counterexamples) -/

/-- A sample row. -/
def sampleMsg (i : Nat) (ch : String) (ts : Nat) : MemoryMessage :=
  { id := i, channel := ch, user := "u", message := toString i,
    role := Role.user, timestamp := ts, similarity := none }

/-- A small well-formed database over two channels. -/
def dbW : DBState :=
  { messages := [sampleMsg 1 "#a" 10, sampleMsg 2 "#b" 20,
                 sampleMsg 3 "#a" 30, sampleMsg 4 "#a" 40],
    vecMessages := [(1, [(1 : Rat)]), (2, [(1 : Rat)]), (3, [(1 : Rat)])],
    nextId := 5 }

/-- A ready engine over `dbW` with a working embedder and the default-shaped
options (`topK = 15 > includeRecent = 5`). -/
def vmW : VectorMemory :=
  { db := some dbW,
    embedder := some (fun _ => some [(1 : Rat)]),
    options := { topK := 15, includeRecent := 5, enabled := true },
    initialized := true }

/-- The same engine administratively disabled. -/
def vmOff : VectorMemory :=
  { vmW with options := { vmW.options with enabled := false } }

/-- The same engine with an embedding provider that fails on every input. -/
def vmFail : VectorMemory :=
  { vmW with embedder := some (fun _ => none) }

/-- A distance function for the opaque `vec_distance_cosine` parameter. -/
def distW : List Rat → List Rat → Rat := fun _ _ => 0

/-- Eleven messages in `"#a"`, embeddings only for the five oldest. -/
def dbCE : DBState :=
  { messages := (List.range 11).map (fun k => sampleMsg (k + 1) "#a" (k + 1)),
    vecMessages := (List.range 5).map (fun k => (k + 1, [(1 : Rat)])),
    nextId := 12 }

/-- A ready engine over `dbCE` configured with `includeRecent = 6 > topK = 5`:
the configuration that exposes the JavaScript negative-`slice` cap. -/
def vmCE : VectorMemory :=
  { db := some dbCE,
    embedder := some (fun _ => some [(1 : Rat)]),
    options := { topK := 5, includeRecent := 6, enabled := true },
    initialized := true }

/-! ### Theorems -/

/-- Claim C1.  `purge_older_than(cutoff)` (modelled from the spec, see
`purge_older_than`) removes exactly the messages with `timestamp < cutoff`,
across all channels; it is idempotent and a no-op when no rows qualify; no
surviving embedding refers to a deleted message; and (given referential
integrity beforehand) every surviving embedding still references a surviving
message. -/
theorem purge_older_than_ok (db : DBState) (c : Nat) :
    (∀ m ∈ db.messages, m.timestamp < c → m ∉ (purge_older_than db c).messages) ∧
    (∀ m ∈ db.messages, ¬ m.timestamp < c → m ∈ (purge_older_than db c).messages) ∧
    (∀ m ∈ (purge_older_than db c).messages, m ∈ db.messages) ∧
    purge_older_than (purge_older_than db c) c = purge_older_than db c ∧
    ((∀ m ∈ db.messages, ¬ m.timestamp < c) → purge_older_than db c = db) ∧
    (∀ p ∈ (purge_older_than db c).vecMessages, ∀ m ∈ db.messages,
      m.id = p.1 → ¬ m.timestamp < c) ∧
    (db.WF → ∀ p ∈ (purge_older_than db c).vecMessages,
      ∃ m ∈ (purge_older_than db c).messages, m.id = p.1) := by
  obtain ⟨msgs, vecs, nid⟩ := db
  refine ⟨?_, ?_, ?_, ?_, ?_, ?_, ?_⟩
  · intro m hm hts hmem
    simp only [purge_older_than, List.mem_filter, Bool.not_eq_true',
      decide_eq_false_iff_not] at hmem
    exact hmem.2 hts
  · intro m hm hts
    simp only [purge_older_than, List.mem_filter, Bool.not_eq_true',
      decide_eq_false_iff_not]
    exact ⟨hm, hts⟩
  · intro m hm
    simp only [purge_older_than, List.mem_filter] at hm
    exact hm.1
  · simp only [purge_older_than, List.filter_filter, DBState.mk.injEq]
    refine ⟨by simp, by simp, trivial⟩
  · intro h
    simp only [purge_older_than, DBState.mk.injEq]
    have hnil : msgs.filter (fun m => decide (m.timestamp < c)) = [] :=
      List.filter_eq_nil_iff.mpr (fun m hm => by simpa using h m hm)
    refine ⟨List.filter_eq_self.mpr (fun m hm => by simpa using h m hm), ?_, trivial⟩
    simp [hnil]
  · intro p hp m hm hid hts
    simp only [purge_older_than, List.mem_filter, Bool.not_eq_true'] at hp
    have hin : p.1 ∈ (msgs.filter (fun m => decide (m.timestamp < c))).map (fun m => m.id) :=
      List.mem_map.mpr ⟨m, List.mem_filter.mpr ⟨hm, by simpa using hts⟩, hid⟩
    have hcon := hp.2
    simp only [List.contains, List.elem_eq_mem, decide_eq_false_iff_not] at hcon
    exact hcon hin
  · rintro ⟨hnd, hvnd, hlt, href⟩ p hp
    simp only [purge_older_than, List.mem_filter, Bool.not_eq_true'] at hp
    obtain ⟨m, hm, hid⟩ := href p hp.1
    have hcon := hp.2
    simp only [List.contains, List.elem_eq_mem, decide_eq_false_iff_not] at hcon
    have hnot : ¬ m.timestamp < c := by
      intro hts
      exact hcon (List.mem_map.mpr ⟨m, List.mem_filter.mpr ⟨hm, by simpa using hts⟩, hid⟩)
    exact ⟨m, List.mem_filter.mpr ⟨hm, by simpa using hnot⟩, hid⟩

/-- A `filterMap` whose function turns `a` into elements projecting back to
`h a` yields, after mapping that projection, a sublist of `l.map h`. -/
lemma filterMap_fst_sublist {α β γ : Type} (g : α → Option β) (f : β → γ) (h : α → γ)
    (H : ∀ a b, g a = some b → f b = h a) :
    ∀ l : List α, List.Sublist ((l.filterMap g).map f) (l.map h) := by
  intro l
  induction l with
  | nil => simp
  | cons a t ih =>
    cases hga : g a with
    | none =>
      rw [List.filterMap_cons_none hga, List.map_cons]
      exact ih.cons _
    | some b =>
      rw [List.filterMap_cons_some hga, List.map_cons, List.map_cons, H a b hga]
      exact ih.cons₂ _

/-- What a successful row of the `vec_messages ⋈ messages` join looks like:
its message carries the joined `message_id`, is a stored message, and lies in
the requested channel. -/
lemma joinVec_some_id {db : DBState} {dist : List Rat → List Rat → Rat}
    {ch : String} {qv : List Rat} {a : Nat × List Rat} {b : MemoryMessage × Rat}
    (hab : (match db.messages.find? (fun m => m.id == a.1) with
      | none => none
      | some m => if m.channel == ch then some (m, dist a.2 qv) else none) = some b) :
    b.1.id = a.1 ∧ b.1 ∈ db.messages ∧ b.1.channel = ch := by
  split at hab
  · exact absurd hab (by simp)
  · rename_i m hfind
    split at hab
    · rename_i hch
      obtain rfl : (m, dist a.2 qv) = b := Option.some.inj hab
      refine ⟨?_, List.mem_of_find?_eq_some hfind, by simpa using hch⟩
      have := List.find?_some hfind
      simpa using this
    · exact absurd hab (by simp)

/-- Every row of the join is a stored message of the requested channel. -/
lemma joinVec_mem {db : DBState} {dist : List Rat → List Rat → Rat}
    {ch : String} {qv : List Rat} {p : MemoryMessage × Rat}
    (hp : p ∈ joinVec db dist ch qv) :
    p.1 ∈ db.messages ∧ p.1.channel = ch := by
  simp only [joinVec, List.mem_filterMap] at hp
  obtain ⟨a, _, hab⟩ := hp
  exact (joinVec_some_id hab).2

/-- The ids of the join are a sublist of the `vec_messages` primary keys. -/
lemma joinVec_ids_sublist (db : DBState) (dist : List Rat → List Rat → Rat)
    (ch : String) (qv : List Rat) :
    List.Sublist ((joinVec db dist ch qv).map (fun p => p.1.id))
      (db.vecMessages.map (fun p => p.1)) :=
  filterMap_fst_sublist _ _ _ (fun _ _ hab => (joinVec_some_id hab).1) db.vecMessages

/-- Every message returned by `getRecentMessages` is a stored message of the
requested channel. -/
lemma mem_getRecentMessages {vm : VectorMemory} {db : DBState} (hdb : vm.db = some db)
    {ch : String} {k : Nat} {m : MemoryMessage}
    (hm : m ∈ vm.getRecentMessages ch k) : m ∈ channelMessages db ch := by
  unfold VectorMemory.getRecentMessages at hm
  split at hm
  · simp at hm
  · rw [hdb] at hm
    simp only [List.mem_reverse] at hm
    have := (List.take_sublist k (((channelMessages db ch).insertionSort tsGE))).mem hm
    exact (List.mem_insertionSort tsGE).mp this

/-- Unfolding `channelMessages` membership. -/
lemma mem_channelMessages {db : DBState} {ch : String} {m : MemoryMessage}
    (hm : m ∈ channelMessages db ch) : m ∈ db.messages ∧ m.channel = ch := by
  simp only [channelMessages, List.mem_filter] at hm
  exact ⟨hm.1, by simpa using hm.2⟩

/-- On an open database, `getRecentMessages` is either empty (engine off) or
the reversed `take` of the timestamp-descending sort of the channel's rows. -/
lemma getRecentMessages_eq (vm : VectorMemory) (db : DBState) (hdb : vm.db = some db)
    (ch : String) (k : Nat) :
    vm.getRecentMessages ch k = [] ∨
    vm.getRecentMessages ch k =
      (((channelMessages db ch).insertionSort tsGE).take k).reverse := by
  unfold VectorMemory.getRecentMessages
  split
  · exact Or.inl rfl
  · rw [hdb]
    exact Or.inr rfl

/-- Claim C5.  `getRecentMessages(channel, k)` returns messages in
non-decreasing timestamp order; every returned message is a stored message of
the channel; the result is a suffix by time (each excluded channel message is
no newer than each included one); it has at most `k` entries; and it is empty
(not an error) when the channel is unknown or empty. -/
theorem getRecentMessages_ok (vm : VectorMemory) (db : DBState) (hdb : vm.db = some db)
    (ch : String) (k : Nat) :
    List.Pairwise (fun a b => a.timestamp ≤ b.timestamp) (vm.getRecentMessages ch k) ∧
    (∀ m ∈ vm.getRecentMessages ch k, m ∈ channelMessages db ch) ∧
    (∀ x ∈ channelMessages db ch, x ∉ vm.getRecentMessages ch k →
      ∀ y ∈ vm.getRecentMessages ch k, x.timestamp ≤ y.timestamp) ∧
    (vm.getRecentMessages ch k).length ≤ k ∧
    (channelMessages db ch = [] → vm.getRecentMessages ch k = []) := by
  rcases getRecentMessages_eq vm db hdb ch k with h | h <;> rw [h]
  · exact ⟨List.Pairwise.nil, by simp, by simp, by simp, fun _ => rfl⟩
  · have hsort : List.Pairwise tsGE ((channelMessages db ch).insertionSort tsGE) :=
      List.sorted_insertionSort tsGE (channelMessages db ch)
    refine ⟨?_, ?_, ?_, ?_, ?_⟩
    · rw [List.pairwise_reverse]
      exact hsort.sublist (List.take_sublist k _)
    · intro m hm
      have hmem : m ∈ ((channelMessages db ch).insertionSort tsGE).take k :=
        List.mem_reverse.mp hm
      exact (List.mem_insertionSort tsGE).mp ((List.take_sublist k _).mem hmem)
    · intro x hx hxr y hy
      have hyS : y ∈ ((channelMessages db ch).insertionSort tsGE).take k :=
        List.mem_reverse.mp hy
      have hxS : x ∈ (channelMessages db ch).insertionSort tsGE :=
        (List.mem_insertionSort tsGE).mpr hx
      have hxT : x ∉ ((channelMessages db ch).insertionSort tsGE).take k :=
        fun hc => hxr (List.mem_reverse.mpr hc)
      have hsplit : x ∈ ((channelMessages db ch).insertionSort tsGE).take k ++
          ((channelMessages db ch).insertionSort tsGE).drop k := by
        rw [List.take_append_drop]; exact hxS
      have hxD : x ∈ ((channelMessages db ch).insertionSort tsGE).drop k := by
        rcases List.mem_append.mp hsplit with h1 | h1
        · exact absurd h1 hxT
        · exact h1
      have hpa := hsort
      rw [← List.take_append_drop k ((channelMessages db ch).insertionSort tsGE),
        List.pairwise_append] at hpa
      exact hpa.2.2 y hyS x hxD
    · rw [List.length_reverse, List.length_take]
      exact min_le_left _ _
    · intro hempty
      rw [hempty]
      simp [List.insertionSort]

/-- Witness for C5, at the sample ready engine. -/
theorem getRecentMessages_ok_witness :
    (vmW.getRecentMessages "#a" 2).length ≤ 2 :=
  (getRecentMessages_ok vmW dbW rfl "#a" 2).2.2.2.1

/-- Every message returned by `searchSimilar` lies in the requested channel. -/
lemma searchSimilar_channel {vm : VectorMemory} {dist : List Rat → List Rat → Rat}
    {ch q : String} {k : Nat} {m : MemoryMessage}
    (hm : m ∈ vm.searchSimilar dist ch q k) : m.channel = ch := by
  unfold VectorMemory.searchSimilar at hm
  split at hm
  · simp at hm
  · cases hdb : vm.db with
    | none => rw [hdb] at hm; simp at hm
    | some db =>
      rw [hdb] at hm
      cases hge : vm.generateEmbedding q with
      | error e => rw [hge] at hm; simp at hm
      | ok qv =>
        rw [hge] at hm
        simp only [List.mem_map] at hm
        obtain ⟨p, hp, rfl⟩ := hm
        have hpj : p ∈ joinVec db dist ch qv :=
          (List.mem_insertionSort distLE).mp ((List.take_sublist k _).mem hp)
        exact (joinVec_mem hpj).2

/-- Claim C7.  Channel isolation: for distinct channels `A ≠ B`, neither
`getRecentMessages(A, k)` nor `searchSimilar(A, q, k)` ever includes a message
of channel `B` (every result row carries channel `A`). -/
theorem channel_isolation (vm : VectorMemory) (dist : List Rat → List Rat → Rat)
    (A B q : String) (k : Nat) (hAB : A ≠ B) :
    (∀ m ∈ vm.getRecentMessages A k, m.channel ≠ B) ∧
    (∀ m ∈ vm.searchSimilar dist A q k, m.channel ≠ B) := by
  constructor
  · intro m hm
    cases hdb : vm.db with
    | none =>
      unfold VectorMemory.getRecentMessages at hm
      split at hm
      · simp at hm
      · rw [hdb] at hm; simp at hm
    | some db =>
      have := (mem_channelMessages (mem_getRecentMessages hdb hm)).2
      rw [this]; exact hAB
  · intro m hm
    have := searchSimilar_channel hm
    rw [this]; exact hAB

/-- Witness for C7, at the sample ready engine and channels `#a ≠ #b`. -/
theorem channel_isolation_witness :
    (∀ m ∈ vmW.getRecentMessages "#a" 3, m.channel ≠ "#b") ∧
    (∀ m ∈ vmW.searchSimilar distW "#a" "q" 3, m.channel ≠ "#b") :=
  channel_isolation vmW distW "#a" "#b" "q" 3 (by decide)

lemma getRecentMessages_off {vm : VectorMemory} (ch : String) (k : Nat)
    (hc : (!vm.options.enabled || !vm.initialized) = true) :
    vm.getRecentMessages ch k = [] := by
  unfold VectorMemory.getRecentMessages
  rw [if_pos hc]

lemma getContext_off {vm : VectorMemory} (dist : List Rat → List Rat → Rat)
    (ch q : String) (hc : (!vm.options.enabled || !vm.initialized) = true) :
    vm.getContext dist ch q = [] := by
  unfold VectorMemory.getContext
  rw [if_pos hc]

lemma getContext_on {vm : VectorMemory} (dist : List Rat → List Rat → Rat)
    (ch q : String) (hc : (!vm.options.enabled || !vm.initialized) = false) :
    vm.getContext dist ch q =
      vm.getRecentMessages ch vm.options.includeRecent ++
      jsSliceTo ((vm.searchSimilar dist ch q vm.options.topK).filter
          (fun m => !((vm.getRecentMessages ch vm.options.includeRecent).map
            (fun m => m.id)).contains m.id))
        ((vm.options.topK : Int) - (vm.options.includeRecent : Int)) := by
  unfold VectorMemory.getContext
  rw [if_neg (by simp [hc])]

lemma length_getRecentMessages_le (vm : VectorMemory) (ch : String) (k : Nat) :
    (vm.getRecentMessages ch k).length ≤ k := by
  unfold VectorMemory.getRecentMessages
  split
  · simp
  · cases vm.db with
    | none => simp
    | some db =>
      simp only [List.length_reverse, List.length_take]
      exact min_le_left _ _

lemma jsSliceTo_length_le {α : Type} (l : List α) (e : Int) (he : 0 ≤ e) :
    (jsSliceTo l e).length ≤ e.toNat := by
  unfold jsSliceTo
  rw [if_neg (not_lt.mpr he)]
  rw [List.length_take]
  exact min_le_left _ _

lemma jsSliceTo_sublist {α : Type} (l : List α) (e : Int) :
    List.Sublist (jsSliceTo l e) l := by
  unfold jsSliceTo
  split
  · exact List.take_sublist _ _
  · exact List.take_sublist _ _

/-- Counterexample to claim C2 as stated: on the ready engine `vmCE`
(`topK = 5`, `includeRecent = 6`), `getContext` returns 10 messages,
more than `topK`. -/
theorem getContext_budget_cex :
    vmCE.options.enabled = true ∧ vmCE.initialized = true ∧
    vmCE.options.topK < (vmCE.getContext distW "#a" "q").length := by
  refine ⟨rfl, rfl, ?_⟩
  decide

/-- Claim C2, amended: when `includeRecent ≤ topK` (as in the default
configuration), `getContext` returns at most `topK` messages; and
unconditionally its first `min(includeRecent, |recent|)` entries are exactly
the recency slice. -/
theorem getContext_budget (vm : VectorMemory) (dist : List Rat → List Rat → Rat)
    (ch q : String) (h : vm.options.includeRecent ≤ vm.options.topK) :
    (vm.getContext dist ch q).length ≤ vm.options.topK ∧
    (vm.getContext dist ch q).take
        (min vm.options.includeRecent
          (vm.getRecentMessages ch vm.options.includeRecent).length) =
      vm.getRecentMessages ch vm.options.includeRecent := by
  have hrl := length_getRecentMessages_le vm ch vm.options.includeRecent
  have hmin : min vm.options.includeRecent
      (vm.getRecentMessages ch vm.options.includeRecent).length =
      (vm.getRecentMessages ch vm.options.includeRecent).length := min_eq_right hrl
  cases hc : (!vm.options.enabled || !vm.initialized) with
  | true =>
    rw [getContext_off dist ch q hc, getRecentMessages_off ch _ hc]
    simp
  | false =>
    rw [getContext_on dist ch q hc]
    constructor
    · rw [List.length_append]
      have hsl : (jsSliceTo ((vm.searchSimilar dist ch q vm.options.topK).filter
            (fun m => !((vm.getRecentMessages ch vm.options.includeRecent).map
              (fun m => m.id)).contains m.id))
          ((vm.options.topK : Int) - (vm.options.includeRecent : Int))).length ≤
          ((vm.options.topK : Int) - (vm.options.includeRecent : Int)).toNat :=
        jsSliceTo_length_le _ _ (by omega)
      rw [Int.toNat_sub] at hsl
      omega
    · rw [hmin, List.take_left]

/-- Counterexample to claim C3 as stated: on `vmCE`, where
`includeRecent = 6 ≥ topK = 5`, the similarity slice still contributes four
entries (JavaScript `slice(0, -1)` keeps all but the last element). -/
theorem getContext_cap_cex :
    vmCE.options.topK ≤ vmCE.options.includeRecent ∧
    (vmCE.getContext distW "#a" "q").drop
        (vmCE.getRecentMessages "#a" vmCE.options.includeRecent).length ≠ [] := by
  constructor
  · decide
  · decide

/-- Claim C3, amended: when `includeRecent ≤ topK` the deduplicated
similarity slice is capped to at most `topK - includeRecent` entries (zero
when they are equal); when `includeRecent > topK` the cap is a negative
JavaScript slice end, which keeps all but the last `includeRecent - topK`
filtered entries and can contribute nonzero entries. -/
theorem getContext_cap (vm : VectorMemory) (dist : List Rat → List Rat → Rat)
    (ch q : String) (h : vm.options.includeRecent ≤ vm.options.topK) :
    ((vm.getContext dist ch q).drop
        (vm.getRecentMessages ch vm.options.includeRecent).length).length ≤
      vm.options.topK - vm.options.includeRecent ∧
    (vm.options.includeRecent = vm.options.topK →
      (vm.getContext dist ch q).drop
        (vm.getRecentMessages ch vm.options.includeRecent).length = []) := by
  have key : ((vm.getContext dist ch q).drop
      (vm.getRecentMessages ch vm.options.includeRecent).length).length ≤
      vm.options.topK - vm.options.includeRecent := by
    cases hc : (!vm.options.enabled || !vm.initialized) with
    | true =>
      rw [getContext_off dist ch q hc]
      simp
    | false =>
      rw [getContext_on dist ch q hc, List.drop_left]
      have hsl := jsSliceTo_length_le ((vm.searchSimilar dist ch q vm.options.topK).filter
          (fun m => !((vm.getRecentMessages ch vm.options.includeRecent).map
            (fun m => m.id)).contains m.id))
        ((vm.options.topK : Int) - (vm.options.includeRecent : Int)) (by omega)
      rw [Int.toNat_sub] at hsl
      exact hsl
  refine ⟨key, fun heq => ?_⟩
  have hz : vm.options.topK - vm.options.includeRecent = 0 := by omega
  rw [hz] at key
  exact List.length_eq_zero.mp (Nat.le_zero.mp key)

/-- Witness for the amended C2, at the default-shaped configuration. -/
theorem getContext_budget_witness :
    (vmW.getContext distW "#a" "q").length ≤ vmW.options.topK :=
  (getContext_budget vmW distW "#a" "q" (by decide)).1

/-- Witness for the amended C3, at the default-shaped configuration. -/
theorem getContext_cap_witness :
    ((vmW.getContext distW "#a" "q").drop
        (vmW.getRecentMessages "#a" vmW.options.includeRecent).length).length ≤
      vmW.options.topK - vmW.options.includeRecent :=
  (getContext_cap vmW distW "#a" "q" (by decide)).1

lemma getRecentMessages_ids_nodup {vm : VectorMemory} {db : DBState}
    (hdb : vm.db = some db) (h1 : (db.messages.map (fun m => m.id)).Nodup)
    (ch : String) (k : Nat) :
    ((vm.getRecentMessages ch k).map (fun m => m.id)).Nodup := by
  rcases getRecentMessages_eq vm db hdb ch k with h | h <;> rw [h]
  · simp
  · rw [List.map_reverse, List.nodup_reverse]
    have hch : ((channelMessages db ch).map (fun m => m.id)).Nodup :=
      List.Sublist.nodup ((List.filter_sublist db.messages).map _) h1
    have hperm : (((channelMessages db ch).insertionSort tsGE).map (fun m => m.id)).Nodup :=
      List.Perm.nodup (((List.perm_insertionSort tsGE _).map _).symm) hch
    exact List.Sublist.nodup ((List.take_sublist k _).map _) hperm

lemma searchSimilar_ids_nodup {vm : VectorMemory} {db : DBState}
    (hdb : vm.db = some db) (h2 : (db.vecMessages.map (fun p => p.1)).Nodup)
    (dist : List Rat → List Rat → Rat) (ch q : String) (k : Nat) :
    ((vm.searchSimilar dist ch q k).map (fun m => m.id)).Nodup := by
  unfold VectorMemory.searchSimilar
  split
  · simp
  · rw [hdb]
    cases hge : vm.generateEmbedding q with
    | error e => simp
    | ok qv =>
      have hjoin : ((joinVec db dist ch qv).map (fun p => p.1.id)).Nodup :=
        List.Sublist.nodup (joinVec_ids_sublist db dist ch qv) h2
      have hsorted : (((joinVec db dist ch qv).insertionSort distLE).map
          (fun p => p.1.id)).Nodup :=
        List.Perm.nodup (((List.perm_insertionSort distLE _).map _).symm) hjoin
      have htake : ((((joinVec db dist ch qv).insertionSort distLE).take k).map
          (fun p => p.1.id)).Nodup :=
        List.Sublist.nodup ((List.take_sublist k _).map _) hsorted
      rw [List.map_map]
      exact htake

/-- Claim C4.  Dedup invariant: the context contains no two entries with the
same message id, and no id of the recency prefix occurs in the similarity
suffix. -/
theorem getContext_dedup (vm : VectorMemory) (db : DBState) (hdb : vm.db = some db)
    (h1 : (db.messages.map (fun m => m.id)).Nodup)
    (h2 : (db.vecMessages.map (fun p => p.1)).Nodup)
    (dist : List Rat → List Rat → Rat) (ch q : String) :
    ((vm.getContext dist ch q).map (fun m => m.id)).Nodup ∧
    (∀ m ∈ (vm.getContext dist ch q).drop
        (vm.getRecentMessages ch vm.options.includeRecent).length,
      m.id ∉ (vm.getRecentMessages ch vm.options.includeRecent).map (fun x => x.id)) := by
  cases hc : (!vm.options.enabled || !vm.initialized) with
  | true =>
    rw [getContext_off dist ch q hc]
    exact ⟨by simp, by simp⟩
  | false =>
    rw [getContext_on dist ch q hc]
    have hfilter : ∀ m ∈ (vm.searchSimilar dist ch q vm.options.topK).filter
        (fun m => !((vm.getRecentMessages ch vm.options.includeRecent).map
          (fun m => m.id)).contains m.id),
        m.id ∉ (vm.getRecentMessages ch vm.options.includeRecent).map (fun x => x.id) := by
      intro m hm
      have := (List.mem_filter.mp hm).2
      simp only [Bool.not_eq_true', List.contains, List.elem_eq_mem,
        decide_eq_false_iff_not] at this
      exact this
    have hA : ∀ m ∈ jsSliceTo ((vm.searchSimilar dist ch q vm.options.topK).filter
        (fun m => !((vm.getRecentMessages ch vm.options.includeRecent).map
          (fun m => m.id)).contains m.id))
        ((vm.options.topK : Int) - (vm.options.includeRecent : Int)),
        m.id ∉ (vm.getRecentMessages ch vm.options.includeRecent).map (fun x => x.id) :=
      fun m hm => hfilter m ((jsSliceTo_sublist _ _).mem hm)
    constructor
    · rw [List.map_append, List.nodup_append]
      refine ⟨getRecentMessages_ids_nodup hdb h1 ch _, ?_, ?_⟩
      · apply List.Sublist.nodup
          (((jsSliceTo_sublist _ _).trans (List.filter_sublist _)).map _)
        exact searchSimilar_ids_nodup hdb h2 dist ch q vm.options.topK
      · intro a haR haA
        obtain ⟨m, hmA, rfl⟩ := List.mem_map.mp haA
        exact hA m hmA haR
    · rw [List.drop_left]
      exact hA

/-- Witness for C4, at the sample ready engine (whose database is
well-formed by `decide`). -/
theorem getContext_dedup_witness :
    ((vmW.getContext distW "#a" "q").map (fun m => m.id)).Nodup :=
  (getContext_dedup vmW dbW rfl (by decide) (by decide) distW "#a" "q").1

lemma searchSimilar_eq_nil_of_embed_error {vm : VectorMemory} {q : String}
    {e : EmbedError} (hge : vm.generateEmbedding q = Except.error e)
    (dist : List Rat → List Rat → Rat) (ch : String) (k : Nat) :
    vm.searchSimilar dist ch q k = [] := by
  unfold VectorMemory.searchSimilar
  split
  · rfl
  · cases hdb : vm.db with
    | none => rfl
    | some db => rw [hge]

lemma jsSliceTo_nil {α : Type} (e : Int) : jsSliceTo ([] : List α) e = [] := by
  unfold jsSliceTo
  split <;> simp

lemma getContext_eq_recent_of_embed_error {vm : VectorMemory} {q : String}
    {e : EmbedError} (hge : vm.generateEmbedding q = Except.error e)
    (dist : List Rat → List Rat → Rat) (ch : String) :
    vm.getContext dist ch q = vm.getRecentMessages ch vm.options.includeRecent := by
  cases hc : (!vm.options.enabled || !vm.initialized) with
  | true => rw [getContext_off dist ch q hc, getRecentMessages_off ch _ hc]
  | false =>
    rw [getContext_on dist ch q hc, searchSimilar_eq_nil_of_embed_error hge,
      List.filter_nil, jsSliceTo_nil, List.append_nil]

lemma embedAndStore_of_fail {vm : VectorMemory} {f : String → Option (List Rat)}
    (hemb : vm.embedder = some f) (hfail : ∀ s, f s = none)
    (mid : Nat) (t : String) : vm.embedAndStore mid t = vm := by
  simp [VectorMemory.embedAndStore, VectorMemory.generateEmbedding, hemb, hfail]

lemma mem_getRecentMessages_of_le {vm : VectorMemory} {db : DBState}
    (hdb : vm.db = some db) (hc : (!vm.options.enabled || !vm.initialized) = false)
    {ch : String} {m : MemoryMessage} (hm : m ∈ channelMessages db ch)
    {k : Nat} (hk : (channelMessages db ch).length ≤ k) :
    m ∈ vm.getRecentMessages ch k := by
  unfold VectorMemory.getRecentMessages
  rw [if_neg (by simp [hc]), hdb]
  rw [List.mem_reverse]
  have hlen : ((channelMessages db ch).insertionSort tsGE).length ≤ k := by
    rw [List.length_insertionSort]; exact hk
  rw [List.take_of_length_le hlen]
  exact (List.mem_insertionSort tsGE).mpr hm

/-- Claim C6.  Degraded-mode safety: with an embedding provider that fails on
every input, `addMessage` still succeeds with the fresh id; the stored row is
in the channel and retrievable through `getRecentMessages`; the background
embedding step leaves the state unchanged (failure swallowed); and
`getContext` returns exactly the recency slice without throwing. -/
theorem degraded_mode_safety (vm : VectorMemory) (db : DBState)
    (f : String → Option (List Rat))
    (hemb : vm.embedder = some f) (hfail : ∀ s, f s = none)
    (hen : vm.options.enabled = true) (hinit : vm.initialized = true)
    (hdb : vm.db = some db) (ch u msg : String) (role : Role) (ts : Nat)
    (dist : List Rat → List Rat → Rat) (q : String) :
    0 ≤ (db.nextId : Int) ∧
    (∃ vm2,
      vm.addMessage ch u msg role ts = Except.ok ((db.nextId : Int), vm2) ∧
      vm2.db = some (dbAfterAdd db ch u msg role ts) ∧ vm2.options = vm.options ∧
      vm2.initialized = vm.initialized ∧ vm2.embedder = some f ∧
      (∀ mid t, vm2.embedAndStore mid t = vm2) ∧
      newRow db ch u msg role ts ∈ channelMessages (dbAfterAdd db ch u msg role ts) ch ∧
      (∀ k, (channelMessages (dbAfterAdd db ch u msg role ts) ch).length ≤ k →
        newRow db ch u msg role ts ∈ vm2.getRecentMessages ch k)) ∧
    (∀ mid t, vm.embedAndStore mid t = vm) ∧
    vm.getContext dist ch q = vm.getRecentMessages ch vm.options.includeRecent := by
  have hc : (!vm.options.enabled || !vm.initialized) = false := by
    rw [hen, hinit]; rfl
  have hge : vm.generateEmbedding q = Except.error EmbedError.providerFailure := by
    simp [VectorMemory.generateEmbedding, hemb, hfail]
  have hrow : newRow db ch u msg role ts ∈
      channelMessages (dbAfterAdd db ch u msg role ts) ch :=
    List.mem_filter.mpr ⟨List.mem_append_right _ (List.mem_singleton_self _),
      by simp [newRow]⟩
  refine ⟨Int.natCast_nonneg _, ?_, embedAndStore_of_fail hemb hfail,
    getContext_eq_recent_of_embed_error hge dist ch⟩
  refine ⟨{ vm with db := some (dbAfterAdd db ch u msg role ts) },
    ?_, rfl, rfl, rfl, hemb, ?_, hrow, ?_⟩
  · simp only [VectorMemory.addMessage, hdb]
    rw [if_neg (by simp [hc])]
    simp [dbAfterAdd, newRow]
  · intro mid t
    refine embedAndStore_of_fail ?_ hfail mid t
    exact hemb
  · intro k hk
    exact mem_getRecentMessages_of_le rfl (by simp [hc]) hrow hk

/-- Witness for C6, at the sample engine whose provider always fails. -/
theorem degraded_mode_safety_witness :
    vmFail.getContext distW "#a" "q" =
      vmFail.getRecentMessages "#a" vmFail.options.includeRecent :=
  (degraded_mode_safety vmFail dbW (fun _ => none) rfl (fun _ => rfl) rfl rfl rfl
    "#a" "u" "hi" Role.user 50 distW "q").2.2.2

/-- Claim C8.  `searchSimilar` returns its rows sorted by ascending cosine
distance (equivalently, non-increasing `similarity = 1 - distance`), and the
result is a deterministic function of the stored state, the options, the
embedder, the distance function and the query: two engines in the same state
receive identical result sequences, so ties are broken deterministically. -/
theorem searchSimilar_sorted_deterministic (vm1 vm2 : VectorMemory)
    (dist : List Rat → List Rat → Rat) (ch q : String) (k : Nat)
    (hdb : vm1.db = vm2.db) (hopt : vm1.options = vm2.options)
    (hemb : vm1.embedder = vm2.embedder) (hinit : vm1.initialized = vm2.initialized) :
    List.Pairwise (fun a b => b.similarity.getD 0 ≤ a.similarity.getD 0)
      (vm1.searchSimilar dist ch q k) ∧
    vm1.searchSimilar dist ch q k = vm2.searchSimilar dist ch q k := by
  constructor
  · unfold VectorMemory.searchSimilar
    split
    · exact List.Pairwise.nil
    · cases hd : vm1.db with
      | none => exact List.Pairwise.nil
      | some db =>
        cases hge : vm1.generateEmbedding q with
        | error e => exact List.Pairwise.nil
        | ok qv =>
          rw [List.pairwise_map]
          have hs : List.Pairwise distLE ((joinVec db dist ch qv).insertionSort distLE) :=
            List.sorted_insertionSort distLE _
          have ht : List.Pairwise distLE
              (((joinVec db dist ch qv).insertionSort distLE).take k) :=
            hs.sublist (List.take_sublist k _)
          refine ht.imp ?_
          intro a b hab
          simpa using sub_le_sub_left hab 1
  · obtain ⟨d1, e1, o1, i1⟩ := vm1
    obtain ⟨d2, e2, o2, i2⟩ := vm2
    cases hdb
    cases hemb
    cases hopt
    cases hinit
    rfl

/-- Witness for C8, at the sample ready engine (compared with itself). -/
theorem searchSimilar_sorted_deterministic_witness :
    List.Pairwise (fun a b => b.similarity.getD 0 ≤ a.similarity.getD 0)
      (vmW.searchSimilar distW "#a" "q" 3) :=
  (searchSimilar_sorted_deterministic vmW vmW distW "#a" "q" 3 rfl rfl rfl rfl).1

/-- Claim C9.  On any state satisfying the class invariant, `addMessage`
never throws (it always returns a result), and it returns the sentinel `-1`
with the state untouched when the engine is administratively disabled. -/
theorem addMessage_total (vm : VectorMemory) (ch u msg : String) (role : Role)
    (ts : Nat) (hInv : vm.Inv) :
    (∃ r, vm.addMessage ch u msg role ts = Except.ok r) ∧
    (vm.options.enabled = false →
      vm.addMessage ch u msg role ts = Except.ok (-1, vm)) := by
  constructor
  · unfold VectorMemory.addMessage
    split
    · exact ⟨_, rfl⟩
    · rename_i hcond
      have hinit : vm.initialized = true := by
        rcases Bool.eq_false_or_eq_true vm.initialized with h | h
        · exact h
        · exact absurd (by rw [h]; simp) hcond
      obtain ⟨hdbs, _⟩ := hInv hinit
      obtain ⟨db, hdb⟩ := Option.isSome_iff_exists.mp hdbs
      rw [hdb]
      exact ⟨_, rfl⟩
  · intro hoff
    unfold VectorMemory.addMessage
    rw [if_pos (by rw [hoff]; rfl)]

/-- Witness for C9, at the administratively disabled sample engine. -/
theorem addMessage_total_witness :
    vmOff.addMessage "#a" "u" "hi" Role.user 7 = Except.ok (-1, vmOff) :=
  (addMessage_total vmOff "#a" "u" "hi" Role.user 7
    (fun _ => ⟨rfl, rfl⟩)).2 rfl

end EggdropAI

namespace EggdropAI

/-- `generateEmbedding` on a loaded embedder runs the provider. -/
lemma generateEmbedding_eq_of_embedder {vm : VectorMemory}
    {f : String → Option (List Rat)} (hemb : vm.embedder = some f) (t : String) :
    vm.generateEmbedding t = (match f t with
      | none => Except.error EmbedError.providerFailure
      | some v => Except.ok v) := by
  unfold VectorMemory.generateEmbedding
  rw [hemb]

/-- The two shapes of `embedAndStore`: swallowed failure (state unchanged) or
a successful append to `vec_messages`. -/
lemma embedAndStore_cases (vm : VectorMemory) (mid : Nat) (t : String) :
    vm.embedAndStore mid t = vm ∨
    ∃ db emb, vm.db = some db ∧
      vm.embedAndStore mid t =
        { vm with db := some { db with vecMessages := db.vecMessages ++ [(mid, emb)] } } := by
  unfold VectorMemory.embedAndStore
  cases vm.generateEmbedding t with
  | error e => exact Or.inl rfl
  | ok emb =>
    cases hdb : vm.db with
    | none => exact Or.inl rfl
    | some db =>
      by_cases hany : (db.vecMessages.any fun p => p.1 == mid) = true
      · left
        show (if (db.vecMessages.any fun p => p.1 == mid) = true then vm else _) = vm
        rw [if_pos hany]
      · right
        refine ⟨db, emb, rfl, ?_⟩
        show (if (db.vecMessages.any fun p => p.1 == mid) = true then vm else _) = _
        rw [if_neg hany]

/-- Claim C10.  The class invariant `initialized → db ≠ null ∧ embedder ≠ null`
is established by `initialize` on every path (the flag is set only after both
fields), preserved by `close` (which clears `db` and `initialized` together),
by `addMessage` (which also leaves `initialized`, `embedder` and the
non-nullness of `db` unchanged) and by the background embedding step; and
whenever `isReady()` is true the `'Database not initialized'` branch of
`addMessage` and the `'Embedding model not initialized'` branch of
`generateEmbedding` are unreachable. -/
theorem initialized_inv (vm : VectorMemory) (hInv : vm.Inv) :
    (∀ disk extOk embedLoad, (( VectorMemory.initialize vm disk extOk embedLoad).2).Inv) ∧
    vm.close.Inv ∧
    (∀ ch u msg role ts i vm2, vm.addMessage ch u msg role ts = Except.ok (i, vm2) →
      vm2.Inv ∧ vm2.initialized = vm.initialized ∧ vm2.embedder = vm.embedder ∧
        vm2.db.isSome = vm.db.isSome) ∧
    (∀ mid t, (vm.embedAndStore mid t).Inv ∧
      (vm.embedAndStore mid t).initialized = vm.initialized ∧
      (vm.embedAndStore mid t).embedder = vm.embedder ∧
      (vm.embedAndStore mid t).db.isSome = vm.db.isSome) ∧
    (vm.isReady = true →
      (∀ ch u msg role ts,
        vm.addMessage ch u msg role ts ≠ Except.error AddError.dbNotInitialized) ∧
      (∀ t, vm.generateEmbedding t ≠ Except.error EmbedError.notInitialized)) := by
  refine ⟨?_, ?_, ?_, ?_, ?_⟩
  · intro disk extOk embedLoad
    unfold VectorMemory.initialize
    split
    · exact hInv
    · split
      · exact hInv
      · rename_i hni
        split
        · intro hcontr
          exact absurd hcontr hni
        · cases embedLoad with
          | none =>
            intro hcontr
            exact absurd hcontr hni
          | some f =>
            intro _
            exact ⟨rfl, rfl⟩
  · unfold VectorMemory.close
    cases vm.db with
    | none => exact hInv
    | some db =>
      intro hcontr
      exact absurd hcontr (by simp)
  · intro ch u msg role ts i vm2 heq
    unfold VectorMemory.addMessage at heq
    split at heq
    · obtain ⟨rfl, rfl⟩ : (-1 : Int) = i ∧ vm = vm2 := by
        have := Except.ok.inj heq
        exact ⟨congrArg Prod.fst this, congrArg Prod.snd this⟩
      exact ⟨hInv, rfl, rfl, rfl⟩
    · rename_i hcond
      have hinit : vm.initialized = true := by
        rcases Bool.eq_false_or_eq_true vm.initialized with h | h
        · exact h
        · exact absurd (by rw [h]; simp) hcond
      cases hdb : vm.db with
      | none => rw [hdb] at heq; exact absurd heq (by simp)
      | some db =>
        rw [hdb] at heq
        have hpair := Except.ok.inj heq
        injection hpair with hi hvm2
        rw [← hvm2]
        refine ⟨?_, rfl, rfl, by simp [hdb]⟩
        intro _
        exact ⟨rfl, (hInv hinit).2⟩
  · intro mid t
    rcases embedAndStore_cases vm mid t with h | ⟨db, emb, hdb, h⟩ <;> rw [h]
    · exact ⟨hInv, rfl, rfl, rfl⟩
    · refine ⟨?_, rfl, rfl, by simp [hdb]⟩
      intro hi
      exact ⟨rfl, (hInv hi).2⟩
  · intro hready
    have hrb : (vm.options.enabled && vm.initialized) = true := hready
    have hen : vm.options.enabled = true := by
      rcases Bool.eq_false_or_eq_true vm.options.enabled with h | h
      · exact h
      · rw [h] at hrb; simp at hrb
    have hinit : vm.initialized = true := by
      rcases Bool.eq_false_or_eq_true vm.initialized with h | h
      · exact h
      · rw [h] at hrb; simp at hrb
    obtain ⟨hdbs, hembs⟩ := hInv hinit
    obtain ⟨db, hdb⟩ := Option.isSome_iff_exists.mp hdbs
    obtain ⟨f, hemb⟩ := Option.isSome_iff_exists.mp hembs
    constructor
    · intro ch u msg role ts
      unfold VectorMemory.addMessage
      rw [if_neg (by rw [hen, hinit]; simp), hdb]
      simp
    · intro t
      rw [generateEmbedding_eq_of_embedder hemb t]
      cases hft : f t with
      | none => simp
      | some v => simp

/-- Witness for C10, at the sample ready engine. -/
theorem initialized_inv_witness : vmW.close.Inv :=
  (initialized_inv vmW (fun _ => ⟨rfl, rfl⟩)).2.1

end EggdropAI
